import Mathlib

/-!
Verification development for the disaster-geocoding pipeline
(csv_to_db.py, generate_geojson.py, geocode_nominatim.py).

Strings are embedded as `List Char`; the Python string operations used by the
code (lower, replace, strip, the concrete regular-expression substitutions and
splits) are translated into structurally recursive Lean functions on charater
lists.  The character-class predicates follow the ASCII behaviour of the
Python originals.

Coordinates are embedded in integer microdegrees: a decimal literal d in the
source is represented by the integer d * 10^6.  Every coordinate literal in
the repository has at most six decimal places, so this embedding is exact, and
the code performs no coordinate arithmetic at all - coordinates are only
stored, compared for truthiness and copied - so equality and range
comparisons are preserved verbatim.  In particular the latitude range
-90 <= lat <= 90 becomes -90000000 <= lat <= 90000000.
-/

namespace DisasterGeo

/-- Coordinate pair: (latitude, longitude) in integer microdegrees. -/
abbrev Coord := Int × Int

/-- Whitespace in the sense of the ASCII part of the Python class \s
(and of str.strip / str.isspace restricted to ASCII). -/
def isWS (c : Char) : Bool :=
  c == ' ' || c == '\t' || c == '\n' || c == '\x0d' || c == '\x0b' || c == '\x0c'

/-- Word character in the sense of the ASCII part of the Python class \w. -/
def isWordChar (c : Char) : Bool :=
  c.isAlpha || c.isDigit || c == '_'

/-- Python single-character str.replace: every occurrence of the character
a is replaced by the string r. -/
def replCh (a : Char) (r : List Char) : List Char → List Char
  | [] => []
  | c :: t => (if c == a then r else [c]) ++ replCh a r t

/-- Is the first list a prefix of the second (by character equality)? -/
def isPrefixL : List Char → List Char → Bool
  | [], _ => true
  | _ :: _, [] => false
  | a :: as, b :: bs => a == b && isPrefixL as bs

/-- Python substring containment: needle in hay. -/
def containsSub (needle : List Char) : List Char → Bool
  | [] => isPrefixL needle []
  | c :: t => isPrefixL needle (c :: t) || containsSub needle t

/-- First-match association-list lookup (Python dict membership / indexing). -/
def lookupL {α : Type} : List (List Char × α) → List Char → Option α
  | [], _ => none
  | (k, v) :: rest, q => if k == q then some v else lookupL rest q

/-- Python str.lower (ASCII case folding, as in Char.toLower). -/
def pyLower (s : List Char) : List Char := s.map Char.toLower

/-- Python str.upper (ASCII case folding, as in Char.toUpper). -/
def pyUpper (s : List Char) : List Char := s.map Char.toUpper

/-- Remove trailing characters satisfying p (Python str.rstrip). -/
def dropEnd (p : Char → Bool) : List Char → List Char
  | [] => []
  | c :: t =>
    let t2 := dropEnd p t
    if t2.isEmpty && p c then [] else c :: t2

/-- Python str.strip(): remove leading and trailing whitespace. -/
def pyStrip (s : List Char) : List Char := dropEnd isWS (s.dropWhile isWS)

/-- Python str.strip(underscore): remove leading and trailing underscores. -/
def stripUnd (s : List Char) : List Char :=
  dropEnd (fun c => c == '_') (s.dropWhile (fun c => c == '_'))

/-- Word-boundary test for the character, if any, that follows a match. -/
def boundaryR : List Char → Bool
  | [] => true
  | c :: _ => !isWordChar c

/-- re.sub of a word-isolated occurrence of the literal word "and" by
" and " (pattern \band\b, replacement with a space on both sides).  The
boolean argument records whether the previous character of the original
string was a word character (false at the start of the string). -/
def subAnd : Bool → List Char → List Char
  | _, [] => []
  | prevW, 'a' :: 'n' :: 'd' :: rest =>
    if !prevW && boundaryR rest then
      ' ' :: 'a' :: 'n' :: 'd' :: ' ' :: subAnd true rest
    else
      'a' :: subAnd true ('n' :: 'd' :: rest)
  | _, c :: rest => c :: subAnd (isWordChar c) rest

/-- Worker for run collapsing: re.sub of a nonempty run of characters
satisfying p by the single character r.  The boolean flag records whether
we are inside a run whose replacement has already been emitted. -/
def subRunsGo (p : Char → Bool) (r : Char) : Bool → List Char → List Char
  | _, [] => []
  | inRun, c :: rest =>
    if p c then
      if inRun then subRunsGo p r true rest
      else r :: subRunsGo p r true rest
    else c :: subRunsGo p r false rest

/-- re.sub of a nonempty run of characters satisfying p by the single
character r (patterns of the shape [...]+ in the source). -/
def subRuns (p : Char → Bool) (r : Char) (s : List Char) : List Char :=
  subRunsGo p r false s

/-- Worker for the hyphen-spacing substitution re.sub of \s*-\s* by "-".
A maximal whitespace run is dropped exactly when it touches a hyphen on
either side; pend buffers the current whitespace run, after records whether
the previous emitted character was a hyphen. -/
def subHyphenGo : Bool → List Char → List Char → List Char
  | after, pend, [] => if after then [] else pend
  | after, pend, c :: rest =>
    if isWS c then subHyphenGo after (pend ++ [c]) rest
    else if c == '-' then '-' :: subHyphenGo true [] rest
    else (if after then [c] else pend ++ [c]) ++ subHyphenGo false [] rest

/-- re.sub of \s*-\s* by "-": remove whitespace adjacent to hyphens. -/
def subHyphen (s : List Char) : List Char := subHyphenGo false [] s

/-- The normalization sequence of generate_geojson.find_location_coords
(lines 96-110): lower, newline to space, isolate the standalone word "and",
dashes to hyphen, slash to comma-space, runs of underscore and tab to space,
runs of the punctuation .()[] to space, collapse whitespace around hyphens,
collapse whitespace runs and strip. -/
def normalizeLoc (s0 : List Char) : List Char :=
  let s1 := pyLower s0
  let s2 := replCh '\n' [' '] s1
  let s3 := subAnd false s2
  let s4 := replCh '–' ['-'] s3
  let s5 := replCh '—' ['-'] s4
  let s6 := replCh '/' [',', ' '] s5
  let s7 := subRuns (fun c => c == '_' || c == '\t') ' ' s6
  let s8 := subRuns (fun c => c == '.' || c == '(' || c == ')' || c == '[' || c == ']') ' ' s7
  let s9 := subHyphen s8
  pyStrip (subRuns isWS ' ' s9)

/-- STATE_COORDS of generate_geojson.py, in source order, microdegrees. -/
def stateCoords : List (List Char × Coord) := [
  (("alabama").data, (32806671, -86791130)),
  (("alaska").data, (61370716, -152404419)),
  (("arizona").data, (33729759, -111431221)),
  (("arkansas").data, (34969704, -92373123)),
  (("california").data, (36116203, -119681564)),
  (("colorado").data, (39059811, -105311104)),
  (("connecticut").data, (41597782, -72755371)),
  (("delaware").data, (39318523, -75507141)),
  (("florida").data, (27766279, -81686783)),
  (("georgia").data, (33040619, -83643074)),
  (("hawaii").data, (21094318, -157498337)),
  (("idaho").data, (44240459, -114478828)),
  (("illinois").data, (40349457, -88986137)),
  (("indiana").data, (39849426, -86258278)),
  (("iowa").data, (42011539, -93210526)),
  (("kansas").data, (38526600, -96726486)),
  (("kentucky").data, (37668140, -84670067)),
  (("louisiana").data, (31169546, -91867805)),
  (("maine").data, (44693947, -69381927)),
  (("maryland").data, (39063946, -76802101)),
  (("massachusetts").data, (42230171, -71530106)),
  (("michigan").data, (43326618, -84536095)),
  (("minnesota").data, (45694454, -93900192)),
  (("mississippi").data, (32741646, -89678696)),
  (("missouri").data, (38456085, -92288368)),
  (("montana").data, (46921925, -110454353)),
  (("nebraska").data, (41125370, -98268082)),
  (("nevada").data, (38313515, -117055374)),
  (("new hampshire").data, (43452492, -71563896)),
  (("new jersey").data, (40298904, -74521011)),
  (("new mexico").data, (34840515, -106248482)),
  (("new york").data, (42165726, -74948051)),
  (("north carolina").data, (35630066, -79806419)),
  (("north dakota").data, (47528912, -99784012)),
  (("ohio").data, (40388783, -82764915)),
  (("oklahoma").data, (35565342, -96928917)),
  (("oregon").data, (44572021, -122070938)),
  (("pennsylvania").data, (40590752, -77209755)),
  (("rhode island").data, (41680893, -71511780)),
  (("south carolina").data, (33856892, -80945007)),
  (("south dakota").data, (44299782, -99438828)),
  (("tennessee").data, (35747845, -86692345)),
  (("texas").data, (31054487, -97563461)),
  (("utah").data, (40150032, -111862434)),
  (("vermont").data, (44045876, -72710686)),
  (("virginia").data, (37769337, -78169968)),
  (("washington").data, (47400902, -121490494)),
  (("west virginia").data, (38491226, -80954453)),
  (("wisconsin").data, (44268543, -89616508)),
  (("wyoming").data, (42755966, -107302490)),
  (("district of columbia").data, (38907200, -77036900)),
  (("puerto rico").data, (18220800, -66590100))]

/-- The expanded_regions dictionary of find_location_coords: REGION_COORDS
updated with the extra variants, in Python dict insertion/update order
(the update of the key "eastern united states" keeps its original position
and value; the duplicated "western north america" key keeps its first
position). -/
def expandedRegions : List (List Char × Coord) := [
  (("southern united states").data, (31000000, -86000000)),
  (("southern united states,midwestern united states").data, (36000000, -88000000)),
  (("midwestern united states").data, (41500000, -90000000)),
  (("western united states").data, (40000000, -120000000)),
  (("eastern united states").data, (40000000, -75000000)),
  (("northeastern united states").data, (43000000, -71000000)),
  (("southeastern united states").data, (32000000, -82000000)),
  (("great lakes region").data, (43000000, -84000000)),
  (("hawaii").data, (21094318, -157498337)),
  (("alaska").data, (61370716, -152404419)),
  (("western north america").data, (45000000, -120000000)),
  (("east coast").data, (40000000, -73000000)),
  (("carolinas").data, (35500000, -79000000)),
  (("great plains").data, (39000000, -98000000)),
  (("great lakesarea").data, (43000000, -84000000)),
  (("northeast").data, (43000000, -71000000)),
  (("northwest").data, (46500000, -120000000)),
  (("south-central united states").data, (33000000, -95000000)),
  (("south central united states").data, (33000000, -95000000)),
  (("central and southern states").data, (33000000, -95000000)),
  (("midwestandnortheast").data, (41000000, -89000000)),
  (("midwest and northeast").data, (41000000, -89000000)),
  (("eastern us").data, (40000000, -75000000))]

/-- The extra_keywords dictionary of find_location_coords, source order. -/
def extraKeywords : List (List Char × Coord) := [
  (("caribbean").data, (15000000, -61000000)),
  (("venezuela").data, (7000000, -66000000)),
  (("yucatan").data, (20500000, -89500000)),
  (("yucatán").data, (20500000, -89500000)),
  (("american samoa").data, (-14271000, -170132000)),
  (("atlantic canada").data, (44650000, -63600000)),
  (("widespread").data, (39800000, -98500000)),
  (("nation").data, (39800000, -98500000)),
  (("new england").data, (42500000, -71500000)),
  (("great lakes").data, (43000000, -84000000)),
  (("la plata").data, (38500000, -76970000))]

/-- The city_map dictionary of find_location_coords, source order. -/
def cityMap : List (List Char × Coord) := [
  (("texas").data, (31054487, -97563461)),
  (("california").data, (36116203, -119681564)),
  (("los angeles").data, (36116203, -119681564)),
  (("greater los angeles").data, (36116203, -119681564)),
  (("florida").data, (27766279, -81686783)),
  (("kansas").data, (38526600, -96726486)),
  (("montana").data, (46921925, -110454353)),
  (("kentucky").data, (37668140, -84670067)),
  (("new york").data, (42165726, -74948051)),
  (("hawaii").data, (21094318, -157498337)),
  (("puerto rico").data, (18220800, -66590100)),
  (("alaska").data, (61370716, -152404419)),
  (("fargo").data, (47528912, -99784012)),
  (("waco").data, (31054487, -97563461)),
  (("carolinas").data, (35500000, -79000000)),
  (("great plains").data, (39000000, -98000000)),
  (("great lakesarea").data, (43000000, -84000000)),
  (("midwest").data, (41500000, -90000000)),
  (("midwestern united states").data, (41500000, -90000000)),
  (("northwest").data, (46500000, -120000000)),
  (("northeast").data, (43000000, -71000000)),
  (("south central").data, (33000000, -95000000)),
  (("american samoa").data, (-14271000, -170132000)),
  (("caribbean").data, (15000000, -61000000)),
  (("venezuela").data, (7000000, -66000000)),
  (("yucatan").data, (20500000, -89500000)),
  (("yucatán").data, (20500000, -89500000)),
  (("new england").data, (42500000, -71500000)),
  (("great lakes").data, (43000000, -84000000))]

/-- The abbr_map dictionary exactly as the source builds it: the literal
maps code to state name, and the comprehension inverts it, so the resulting
dictionary maps full state name to two-letter code. -/
def abbrMapInv : List (List Char × List Char) := [
  (("alabama").data, ("AL").data), (("alaska").data, ("AK").data),
  (("arizona").data, ("AZ").data), (("arkansas").data, ("AR").data),
  (("california").data, ("CA").data), (("colorado").data, ("CO").data),
  (("connecticut").data, ("CT").data), (("delaware").data, ("DE").data),
  (("florida").data, ("FL").data), (("georgia").data, ("GA").data),
  (("hawaii").data, ("HI").data), (("idaho").data, ("ID").data),
  (("illinois").data, ("IL").data), (("indiana").data, ("IN").data),
  (("iowa").data, ("IA").data), (("kansas").data, ("KS").data),
  (("kentucky").data, ("KY").data), (("louisiana").data, ("LA").data),
  (("maine").data, ("ME").data), (("maryland").data, ("MD").data),
  (("massachusetts").data, ("MA").data), (("michigan").data, ("MI").data),
  (("minnesota").data, ("MN").data), (("mississippi").data, ("MS").data),
  (("missouri").data, ("MO").data), (("montana").data, ("MT").data),
  (("nebraska").data, ("NE").data), (("nevada").data, ("NV").data),
  (("new hampshire").data, ("NH").data), (("new jersey").data, ("NJ").data),
  (("new mexico").data, ("NM").data), (("new york").data, ("NY").data),
  (("north carolina").data, ("NC").data), (("north dakota").data, ("ND").data),
  (("ohio").data, ("OH").data), (("oklahoma").data, ("OK").data),
  (("oregon").data, ("OR").data), (("pennsylvania").data, ("PA").data),
  (("rhode island").data, ("RI").data), (("south carolina").data, ("SC").data),
  (("south dakota").data, ("SD").data), (("tennessee").data, ("TN").data),
  (("texas").data, ("TX").data), (("utah").data, ("UT").data),
  (("vermont").data, ("VT").data), (("virginia").data, ("VA").data),
  (("washington").data, ("WA").data), (("west virginia").data, ("WV").data),
  (("wisconsin").data, ("WI").data), (("wyoming").data, ("WY").data)]

/-- The abbreviation table as the comments of the source and the spec intend
it: two-letter postal code to full state name, the literal as written. -/
def abbrMapSpec : List (List Char × List Char) := [
  (("AL").data, ("alabama").data), (("AK").data, ("alaska").data),
  (("AZ").data, ("arizona").data), (("AR").data, ("arkansas").data),
  (("CA").data, ("california").data), (("CO").data, ("colorado").data),
  (("CT").data, ("connecticut").data), (("DE").data, ("delaware").data),
  (("FL").data, ("florida").data), (("GA").data, ("georgia").data),
  (("HI").data, ("hawaii").data), (("ID").data, ("idaho").data),
  (("IL").data, ("illinois").data), (("IN").data, ("indiana").data),
  (("IA").data, ("iowa").data), (("KS").data, ("kansas").data),
  (("KY").data, ("kentucky").data), (("LA").data, ("louisiana").data),
  (("ME").data, ("maine").data), (("MD").data, ("maryland").data),
  (("MA").data, ("massachusetts").data), (("MI").data, ("michigan").data),
  (("MN").data, ("minnesota").data), (("MS").data, ("mississippi").data),
  (("MO").data, ("missouri").data), (("MT").data, ("montana").data),
  (("NE").data, ("nebraska").data), (("NV").data, ("nevada").data),
  (("NH").data, ("new hampshire").data), (("NJ").data, ("new jersey").data),
  (("NM").data, ("new mexico").data), (("NY").data, ("new york").data),
  (("NC").data, ("north carolina").data), (("ND").data, ("north dakota").data),
  (("OH").data, ("ohio").data), (("OK").data, ("oklahoma").data),
  (("OR").data, ("oregon").data), (("PA").data, ("pennsylvania").data),
  (("RI").data, ("rhode island").data), (("SC").data, ("south carolina").data),
  (("SD").data, ("south dakota").data), (("TN").data, ("tennessee").data),
  (("TX").data, ("texas").data), (("UT").data, ("utah").data),
  (("VT").data, ("vermont").data), (("VA").data, ("virginia").data),
  (("WA").data, ("washington").data), (("WV").data, ("west virginia").data),
  (("WI").data, ("wisconsin").data), (("WY").data, ("wyoming").data)]

/-- Is c one of the token separator characters of the class [,\/;]? -/
def isSepCh (c : Char) : Bool := c == ',' || c == '/' || c == ';'

/-- Worker for re.split on the pattern of runs of [,\/;] or the literal
separators " and " and " & " (find_location_coords line 131).  The boolean
flag records whether the previous character belonged to a separator run, so
that a maximal run of [,\/;] counts as a single separator. -/
def splitToksGo : Bool → List Char → List Char → List (List Char)
  | _, acc, [] => [acc]
  | _, acc, ' ' :: 'a' :: 'n' :: 'd' :: ' ' :: rest => acc :: splitToksGo false [] rest
  | _, acc, ' ' :: '&' :: ' ' :: rest => acc :: splitToksGo false [] rest
  | inSep, acc, c :: rest =>
    if isSepCh c then
      if inSep then splitToksGo true acc rest
      else acc :: splitToksGo true [] rest
    else splitToksGo false (acc ++ [c]) rest

/-- re.split on runs of [,\/;] or " and " or " & ". -/
def splitToks (s : List Char) : List (List Char) := splitToksGo false [] s

/-- The two-letter-code loop of find_location_coords (lines 130-136),
exactly as written: the outer some means the loop executed a return
statement, whose returned value is the inner option (the result of
STATE_COORDS.get).  Because abbrMapInv is keyed by full state names, the
lookup of a two-character token can never succeed. -/
def tier2Ret : List (List Char) → Option (Option Coord)
  | [] => none
  | t :: rest =>
    let tok := pyStrip t
    if tok.length == 2 then
      match lookupL abbrMapInv (pyUpper tok) with
      | some name => some (lookupL stateCoords name)
      | none => tier2Ret rest
    else tier2Ret rest

/-- The two-letter-code tier as the spec and the source comments describe
it: the first separator-delimited token that is exactly two characters and
uppercases to a known postal code yields the centroid of that state.  This
follows the words of the spec and is the comparison point for the inverted
table actually used by the code. -/
def tier2Spec : List (List Char) → Option Coord
  | [] => none
  | t :: rest =>
    let tok := pyStrip t
    if tok.length == 2 then
      match lookupL abbrMapSpec (pyUpper tok) with
      | some name => lookupL stateCoords name
      | none => tier2Spec rest
    else tier2Spec rest

/-- First entry of the table whose key is a substring of s (the substring
containment loops of find_location_coords). -/
def firstSub (table : List (List Char × Coord)) (s : List Char) : Option Coord :=
  match table with
  | [] => none
  | (k, v) :: rest => if containsSub k s then some v else firstSub rest s

/-- generate_geojson.find_location_coords (lines 93-218): empty input gives
none; otherwise normalize, then try in order the state-name substring tier,
the two-letter-code token loop (returning whatever it returns when it
fires), the expanded region table, the extra keyword table and the city
table, each first match winning. -/
def find_location_coords (loc_text : List Char) : Option Coord :=
  if loc_text.isEmpty then none
  else
    match firstSub stateCoords (normalizeLoc loc_text) with
    | some c => some c
    | none =>
      match tier2Ret (splitToks (normalizeLoc loc_text)) with
      | some r => r
      | none =>
        match firstSub expandedRegions (normalizeLoc loc_text) with
        | some c => some c
        | none =>
          match firstSub extraKeywords (normalizeLoc loc_text) with
          | some c => some c
          | none => firstSub cityMap (normalizeLoc loc_text)

/-- geocode_nominatim.normalize_query (lines 35-41): empty input gives the
empty string; otherwise strip, collapse whitespace runs to single spaces,
then replace newlines by spaces. -/
def normQuery (s : List Char) : List Char :=
  if s.isEmpty then []
  else replCh '\n' [' '] (subRuns isWS ' ' (pyStrip s))

/-- The country-hint suffix appended by the pipeline. -/
def hintUS : List Char := (", United States").data

/-- Worker for re.split on the pattern of a single comma or semicolon or
the literal separators " and " and " & " (try_geocode_variants line 137).
Unlike splitToks, adjacent commas are separate separators here. -/
def splitVarGo : List Char → List Char → List (List Char)
  | acc, [] => [acc]
  | acc, ' ' :: 'a' :: 'n' :: 'd' :: ' ' :: rest => acc :: splitVarGo [] rest
  | acc, ' ' :: '&' :: ' ' :: rest => acc :: splitVarGo [] rest
  | acc, c :: rest =>
    if c == ',' || c == ';' then acc :: splitVarGo [] rest
    else splitVarGo (acc ++ [c]) rest

/-- re.split on a comma, a semicolon, " and " or " & ". -/
def splitVar (s : List Char) : List (List Char) := splitVarGo [] s

/-- The stripped nonempty parts of the query (try_geocode_variants
line 137). -/
def partsOf (q : List Char) : List (List Char) :=
  ((splitVar q).map pyStrip).filter (fun p => !p.isEmpty)

/-- Stable insertion into a list sorted by descending length: an element
already in the list keeps priority over the inserted one when lengths tie,
matching the stability of the Python sorted builtin. -/
def insLen (x : List Char) : List (List Char) → List (List Char)
  | [] => [x]
  | y :: ys => if x.length ≤ y.length then y :: insLen x ys else x :: y :: ys

/-- Stable sort by descending length (sorted with the negated-length key). -/
def sortDescLen (l : List (List Char)) : List (List Char) :=
  l.foldl (fun acc x => insLen x acc) []

/-- Order-preserving deduplication that also drops empty strings, matching
the loop `if a and a not in seen` of try_geocode_variants. -/
def dedupNE (seen : List (List Char)) : List (List Char) → List (List Char)
  | [] => []
  | a :: rest =>
    if !a.isEmpty && !seen.contains a then a :: dedupNE (a :: seen) rest
    else dedupNE seen rest

/-- If pat is a prefix of the list, return the remainder. -/
def stripPre : List Char → List Char → Option (List Char)
  | [], s => some s
  | _ :: _, [] => none
  | p :: ps, c :: cs => if p == c then stripPre ps cs else none

/-- Fuel-driven worker removing every occurrence of hintUS; the fuel is an
upper bound on the input length, so it never runs out. -/
def removeHintF : Nat → List Char → List Char
  | 0, s => s
  | _ + 1, [] => []
  | n + 1, c :: rest =>
    match stripPre hintUS (c :: rest) with
    | some rem => removeHintF n rem
    | none => c :: removeHintF n rest

/-- Python q.replace(hint, empty): remove every occurrence of the hint,
not only a trailing one. -/
def removeHint (s : List Char) : List Char := removeHintF s.length s

/-- The ordered, de-duplicated attempt list built by try_geocode_variants
(lines 132-149): the query, then (when the query ends with the hint) the
query with every occurrence of the hint removed, then the stripped parts
sorted by descending length, then those parts with the hint appended. -/
def tryAttempts (q : List Char) : List (List Char) :=
  let ps := sortDescLen (partsOf q)
  dedupNE []
    (q :: ((if hintUS.isSuffixOf q then [removeHint q] else []) ++
      ps ++ ps.map (fun p => p ++ hintUS)))

/-- The attempt list as the claim words it: the second attempt is the query
with the trailing hint stripped (only the suffix removed), the rest as in
tryAttempts.  Comparison definition following the words of the spec. -/
def specAttempts (q : List Char) : List (List Char) :=
  let ps := sortDescLen (partsOf q)
  dedupNE []
    (q :: ((if hintUS.isSuffixOf q then [q.take (q.length - hintUS.length)] else []) ++
      ps ++ ps.map (fun p => p ++ hintUS)))

/-- First non-none result of f over the list, in order. -/
def firstSome (f : List Char → Option Coord) : List (List Char) → Option Coord
  | [] => none
  | a :: rest =>
    match f a with
    | some r => some r
    | none => firstSome f rest

/-- try_geocode_variants (lines 128-155) with the external client modelled
as the oracle f: empty query gives none, otherwise the attempts are issued
in order and the first non-none result wins. -/
def try_geocode_variants (f : List Char → Option Coord) (q : List Char) : Option Coord :=
  if q.isEmpty then none else firstSome f (tryAttempts q)

/-- Observable actions of the external-lookup loop: a network request for
one attempt string, or the politeness delay time.sleep(1.1). -/
inductive GeoAct : Type
  | req : List Char → GeoAct
  | sleep : GeoAct
deriving DecidableEq, Repr

/-- The attempt strings actually sent to the network for one query: every
attempt up to and including the first successful one. -/
def attemptsTried (f : List Char → Option Coord) : List (List Char) → List (List Char)
  | [] => []
  | a :: rest =>
    match f a with
    | some _ => [a]
    | none => a :: attemptsTried f rest

/-- The action trace of the missing-query loop of geocode_nominatim.main
(lines 158-169): for each missing query, all variant requests are issued
back to back by try_geocode_variants, and the single sleep follows after
the whole variant sequence. -/
def runTrace (f : List Char → Option Coord) : List (List Char) → List GeoAct
  | [] => []
  | q :: rest =>
    (if q.isEmpty then [] else (attemptsTried f (tryAttempts q)).map GeoAct.req) ++
      (GeoAct.sleep :: runTrace f rest)

/-- Does a sleep action stand between any two request actions of the trace
(no two requests are adjacent)?  This is the pacing property the spec
requires of the loop. -/
def noAdjacentReqs : List GeoAct → Bool
  | GeoAct.req _ :: GeoAct.req _ :: _ => false
  | _ :: rest => noAdjacentReqs rest
  | [] => true

/-- Keys of an association list. -/
def keysOf {α : Type} (l : List (List Char × α)) : List (List Char) :=
  l.map Prod.fst

/-- Python `k in dict` for the cache. -/
def hasKey {α : Type} (l : List (List Char × α)) (q : List Char) : Bool :=
  (lookupL l q).isSome

/-- The missing-query list of geocode_nominatim.main (line 124): the unique
queries that have no cache entry at all - a cached negative (none value)
is an entry and keeps the query out of this list. -/
def missingQueries (uniq : List (List Char)) (cache : List (List Char × Option Coord)) :
    List (List Char) :=
  uniq.filter (fun q => !hasKey cache q)

/-- Python dict assignment cache[q] = v: overwrite in place when the key
exists, append otherwise. -/
def dictSet {α : Type} : List (List Char × α) → List Char → α → List (List Char × α)
  | [], k, v => [(k, v)]
  | (k2, v2) :: rest, k, v =>
    if k2 == k then (k2, v) :: rest else (k2, v2) :: dictSet rest k v

/-- The cache after the missing-query loop of main (lines 158-169): each
missing query is assigned its result (some coordinate on success, the
explicit negative none on failure). -/
def runUpdate (cache : List (List Char × Option Coord)) (uniq : List (List Char))
    (res : List Char → Option Coord) : List (List Char × Option Coord) :=
  (missingQueries uniq cache).foldl (fun c q => dictSet c q (res q)) cache

/-- One row of the disasters table as used by geocode_nominatim.main. -/
structure Row where
  rid : Nat
  loc : List Char
  article : List Char
  notes : List Char
deriving DecidableEq, Repr

/-- One output feature: the record identifier together with the latitude
and longitude of the point geometry (the geometry stores them in the order
longitude, latitude; both are carried here). -/
structure Feature where
  fid : Nat
  lat : Int
  lon : Int
deriving DecidableEq, Repr

/-- The query built for a row by geocode_nominatim.main (lines 96-113):
the normalized location when it is nonblank, else the normalized join of
the nonempty fallback fields, then the country hint appended unless the
query already mentions one of the listed places. -/
def rowQuery (r : Row) : List Char :=
  let base :=
    if !(pyStrip r.loc).isEmpty then normQuery r.loc
    else
      normQuery (joinCand ((if !r.article.isEmpty then [r.article] else []) ++
        (if !r.notes.isEmpty then [r.notes] else [])))
  if !base.isEmpty &&
      !containsSub (("united states").data) (pyLower base) &&
      !containsSub (("usa").data) (pyLower base) &&
      !containsSub (("puerto rico").data) (pyLower base) &&
      !containsSub (("venezuela").data) (pyLower base) &&
      !containsSub (("american samoa").data) (pyLower base)
  then base ++ hintUS else base
where
  /-- Python single-space str.join. -/
  joinCand : List (List Char) → List Char
    | [] => []
    | [x] => x
    | x :: y :: rest => x ++ ' ' :: joinCand (y :: rest)

/-- First-match lookup in the approx map keyed by record identifier. -/
def lookupApprox : List (Nat × Coord) → Nat → Option Coord
  | [], _ => none
  | (i, c) :: rest, rid => if i == rid then some c else lookupApprox rest rid

/-- The cached-positive branch of the feature loop, the test
`if q and q in cache and cache[q]` of line 196: a nonempty query whose
cache entry is a truthy (non-null) coordinate. -/
def cacheCoord (cache : List (List Char × Option Coord)) (q : List Char) : Option Coord :=
  if !q.isEmpty then
    match lookupL cache q with
    | some (some c) => some c
    | _ => none
  else none

/-- The per-row coordinate of the feature loop of geocode_nominatim.main
(lines 192-205): a truthy cached positive wins, else the approx-map entry
for the row, else the heuristic resolver applied to the query string. -/
def recordCoord (cache : List (List Char × Option Coord)) (approx : List (Nat × Coord))
    (q : List Char) (rid : Nat) : Option Coord :=
  match cacheCoord cache q with
  | some c => some c
  | none =>
    match lookupApprox approx rid with
    | some c => some c
    | none => find_location_coords q

/-- The feature list built by geocode_nominatim.main (lines 190-220): one
feature per row that resolves to a coordinate, carrying the rowid as the
feature identifier (the per-row query is rowQuery, faithful to the queries
dictionary whenever rowids are distinct). -/
def buildFeatures (rows : List Row) (cache : List (List Char × Option Coord))
    (approx : List (Nat × Coord)) : List Feature :=
  match rows with
  | [] => []
  | r :: rest =>
    match recordCoord cache approx (rowQuery r) r.rid with
    | some c => { fid := r.rid, lat := c.1, lon := c.2 } :: buildFeatures rest cache approx
    | none => buildFeatures rest cache approx

/-- Valid geographic coordinates, in microdegrees: -90 <= lat <= 90 and
-180 <= lon <= 180. -/
def validCoord (c : Coord) : Prop :=
  -90000000 ≤ c.1 ∧ c.1 ≤ 90000000 ∧ -180000000 ≤ c.2 ∧ c.2 ≤ 180000000

instance (c : Coord) : Decidable (validCoord c) := by
  unfold validCoord
  infer_instance

/-- Does the string start with an ASCII digit (Python col[0].isdigit())? -/
def headDigit : List Char → Bool
  | [] => false
  | c :: _ => c.isDigit

/-- The final two steps shared by the sanitizer pipelines: an empty name
becomes the placeholder "col", and a name starting with a digit receives
the prefix letter c with an underscore. -/
def sanitizeTail (c6 : List Char) : List Char :=
  if headDigit (if c6.isEmpty then ("col").data else c6) then
    'c' :: '_' :: (if c6.isEmpty then ("col").data else c6)
  else (if c6.isEmpty then ("col").data else c6)

/-- csv_to_db.sanitize (lines 17-28): strip, replace the dollar sign by
"usd", runs of non-alphanumerics to a single underscore, collapse
underscore runs, strip underscores, lowercase, empty becomes "col", and a
leading digit receives the prefix letter c with an underscore. -/
def sanitize (col : List Char) : List Char :=
  sanitizeTail (pyLower (stripUnd
    (subRuns (fun c => c == '_') '_'
      (subRuns (fun c => !(c.isAlpha || c.isDigit)) '_'
        (replCh '$' (("usd").data) (pyStrip col))))))

/-- The sanitizer as the claim words it (comparison definition following
the words of the spec): every run of non-alphanumerics becomes a single
underscore, strip underscores, lowercase, empty becomes a placeholder, and
a leading digit receives a non-digit prefix.  No special treatment of the
dollar sign. -/
def sanitizeClaimed (col : List Char) : List Char :=
  sanitizeTail (pyLower (stripUnd
    (subRuns (fun c => !(c.isAlpha || c.isDigit)) '_' col)))

/-- JSON values as produced and consumed by json.dumps / json.loads for the
cache file: null, numbers and objects suffice for the cache mapping. -/
inductive JVal : Type
  | jnull : JVal
  | jnum : Int → JVal
  | jobj : List (List Char × JVal) → JVal

/-- Serialization of one cache value: an explicit negative becomes null, a
coordinate becomes the object with the lat and lon fields. -/
def encodeEntry : Option Coord → JVal
  | none => JVal.jnull
  | some c => JVal.jobj [(("lat").data, JVal.jnum c.1), (("lon").data, JVal.jnum c.2)]

/-- Serialization of the whole cache dictionary (save_cache, line 48). -/
def encodeCache (c : List (List Char × Option Coord)) : JVal :=
  JVal.jobj (c.map (fun p => (p.1, encodeEntry p.2)))

/-- Parse one cache value back. -/
def decodeEntry : JVal → Option (Option Coord)
  | JVal.jnull => some none
  | JVal.jobj [(k1, JVal.jnum la), (k2, JVal.jnum lo)] =>
    if k1 == ("lat").data && k2 == ("lon").data then some (some (la, lo)) else none
  | _ => none

/-- Parse the field list of the cache object back. -/
def decodeFields : List (List Char × JVal) → Option (List (List Char × Option Coord))
  | [] => some []
  | (k, v) :: rest =>
    match decodeEntry v, decodeFields rest with
    | some e, some es => some ((k, e) :: es)
    | _, _ => none

/-- Parse a whole cache file back (load_cache, lines 43-46). -/
def decodeCache : JVal → Option (List (List Char × Option Coord))
  | JVal.jobj fields => decodeFields fields
  | _ => none

/-- A character allowed in an ASCII snake_case identifier: an underscore,
an ASCII digit or a lowercase ASCII letter. -/
def isSnakeChar (c : Char) : Bool := c == '_' || c.isDigit || c.isLower

/-! Helper predicates and lemmas about the string workers. -/

/-- The first character, if any, does not satisfy p. -/
def headNot (p : Char → Bool) : List Char → Bool
  | [] => true
  | c :: _ => !p c

/-- The last character, if any, does not satisfy p. -/
def lastNot (p : Char → Bool) : List Char → Bool
  | [] => true
  | [c] => !p c
  | _ :: c :: t => lastNot p (c :: t)

/-- No two adjacent characters both satisfy p. -/
def noTwoP (p : Char → Bool) : List Char → Bool
  | a :: b :: t => (!(p a && p b)) && noTwoP p (b :: t)
  | _ => true

theorem noTwoP_cons_of_headNot {p : Char → Bool} {l : List Char} (x : Char)
    (h1 : headNot p l = true) (h2 : noTwoP p l = true) : noTwoP p (x :: l) = true := by
  cases l with
  | nil => rfl
  | cons e t =>
    have he : p e = false := by simpa [headNot] using h1
    simp [noTwoP, he, h2]

theorem noTwoP_cons_of_not {p : Char → Bool} {l : List Char} {x : Char}
    (h1 : p x = false) (h2 : noTwoP p l = true) : noTwoP p (x :: l) = true := by
  cases l with
  | nil => rfl
  | cons e t => simp [noTwoP, h1, h2]

theorem noTwoP_of_cons {p : Char → Bool} {l : List Char} {x : Char}
    (h : noTwoP p (x :: l) = true) : noTwoP p l = true := by
  cases l with
  | nil => rfl
  | cons e t =>
    simp only [noTwoP, Bool.and_eq_true] at h
    exact h.2

theorem headNot_of_noTwoP_cons {p : Char → Bool} {l : List Char} {x : Char}
    (h : noTwoP p (x :: l) = true) (hx : p x = true) : headNot p l = true := by
  cases l with
  | nil => rfl
  | cons e t =>
    simp only [noTwoP, Bool.and_eq_true, Bool.not_eq_true', Bool.and_eq_false_iff] at h
    rcases h.1 with h1 | h1
    · rw [hx] at h1
      exact absurd h1 (by simp)
    · simpa [headNot] using h1

theorem lastNot_cons_of_ne_nil {p : Char → Bool} {l : List Char} (x : Char)
    (h : l ≠ []) : lastNot p (x :: l) = lastNot p l := by
  cases l with
  | nil => exact absurd rfl h
  | cons e t => rfl

theorem mem_subRunsGo {p : Char → Bool} {r c : Char} :
    ∀ (s : List Char) (b : Bool), c ∈ subRunsGo p r b s → c = r ∨ (p c = false ∧ c ∈ s) := by
  intro s
  induction s with
  | nil =>
    intro b h
    simp [subRunsGo] at h
  | cons d t ih =>
    intro b h
    by_cases hd : p d
    · cases b with
      | true =>
        rw [show subRunsGo p r true (d :: t) = subRunsGo p r true t by simp [subRunsGo, hd]] at h
        rcases ih true h with h1 | ⟨h2, h3⟩
        · exact Or.inl h1
        · exact Or.inr ⟨h2, List.mem_cons_of_mem d h3⟩
      | false =>
        rw [show subRunsGo p r false (d :: t) = r :: subRunsGo p r true t by
          simp [subRunsGo, hd]] at h
        rcases List.mem_cons.mp h with h1 | h1
        · exact Or.inl h1
        · rcases ih true h1 with h2 | ⟨h2, h3⟩
          · exact Or.inl h2
          · exact Or.inr ⟨h2, List.mem_cons_of_mem d h3⟩
    · rw [show subRunsGo p r b (d :: t) = d :: subRunsGo p r false t by simp [subRunsGo, hd]] at h
      rcases List.mem_cons.mp h with h1 | h1
      · subst h1
        exact Or.inr ⟨by simpa using hd, List.mem_cons_self _ _⟩
      · rcases ih false h1 with h2 | ⟨h2, h3⟩
        · exact Or.inl h2
        · exact Or.inr ⟨h2, List.mem_cons_of_mem d h3⟩

theorem headNot_subRunsGo_true {p : Char → Bool} {r : Char} :
    ∀ (s : List Char), headNot p (subRunsGo p r true s) = true := by
  intro s
  induction s with
  | nil => rfl
  | cons d t ih =>
    by_cases hd : p d
    · rw [show subRunsGo p r true (d :: t) = subRunsGo p r true t by simp [subRunsGo, hd]]
      exact ih
    · rw [show subRunsGo p r true (d :: t) = d :: subRunsGo p r false t by simp [subRunsGo, hd]]
      simpa [headNot] using hd

theorem noTwoP_subRunsGo {p : Char → Bool} {r : Char} :
    ∀ (s : List Char) (b : Bool), noTwoP p (subRunsGo p r b s) = true := by
  intro s
  induction s with
  | nil =>
    intro b
    rfl
  | cons d t ih =>
    intro b
    by_cases hd : p d
    · cases b with
      | true =>
        rw [show subRunsGo p r true (d :: t) = subRunsGo p r true t by simp [subRunsGo, hd]]
        exact ih true
      | false =>
        rw [show subRunsGo p r false (d :: t) = r :: subRunsGo p r true t by
          simp [subRunsGo, hd]]
        exact noTwoP_cons_of_headNot r (headNot_subRunsGo_true t) (ih true)
    · rw [show subRunsGo p r b (d :: t) = d :: subRunsGo p r false t by simp [subRunsGo, hd]]
      exact noTwoP_cons_of_not (by simpa using hd) (ih false)

theorem subRunsGo_eq_self {p : Char → Bool} {r : Char} :
    ∀ (s : List Char) (b : Bool), noTwoP p s = true → (∀ c ∈ s, p c = true → c = r) →
      (b = true → headNot p s = true) → subRunsGo p r b s = s := by
  intro s
  induction s with
  | nil =>
    intro b _ _ _
    rfl
  | cons d t ih =>
    intro b h1 h2 h3
    by_cases hd : p d
    · have hdr : d = r := h2 d (List.mem_cons_self _ _) hd
      cases b with
      | true =>
        have := h3 rfl
        simp [headNot, hd] at this
      | false =>
        rw [show subRunsGo p r false (d :: t) = r :: subRunsGo p r true t by
          simp [subRunsGo, hd]]
        rw [ih true (noTwoP_of_cons h1) (fun c hc hpc => h2 c (List.mem_cons_of_mem d hc) hpc)
          (fun _ => headNot_of_noTwoP_cons h1 hd), hdr]
    · rw [show subRunsGo p r b (d :: t) = d :: subRunsGo p r false t by simp [subRunsGo, hd]]
      rw [ih false (noTwoP_of_cons h1) (fun c hc hpc => h2 c (List.mem_cons_of_mem d hc) hpc)
        (by intro h; cases h)]

theorem headNot_subRunsGo_false {p : Char → Bool} {r : Char} {s : List Char}
    (h : headNot p s = true) : headNot p (subRunsGo p r false s) = true := by
  cases s with
  | nil => rfl
  | cons d t =>
    have hd : p d = false := by simpa [headNot] using h
    rw [show subRunsGo p r false (d :: t) = d :: subRunsGo p r false t by simp [subRunsGo, hd]]
    simpa [headNot] using hd

theorem subRunsGo_ne_nil {p : Char → Bool} {r : Char} :
    ∀ (s : List Char) (b : Bool), lastNot p s = true → s ≠ [] → subRunsGo p r b s ≠ [] := by
  intro s
  induction s with
  | nil =>
    intro b _ h
    exact absurd rfl h
  | cons d t ih =>
    intro b h1 _
    by_cases hd : p d
    · cases t with
      | nil => simp [lastNot, hd] at h1
      | cons e t2 =>
        rw [lastNot_cons_of_ne_nil d (by simp)] at h1
        cases b with
        | true =>
          rw [show subRunsGo p r true (d :: e :: t2) = subRunsGo p r true (e :: t2) by
            simp [subRunsGo, hd]]
          exact ih true h1 (by simp)
        | false =>
          rw [show subRunsGo p r false (d :: e :: t2) = r :: subRunsGo p r true (e :: t2) by
            simp [subRunsGo, hd]]
          simp
    · rw [show subRunsGo p r b (d :: t) = d :: subRunsGo p r false t by simp [subRunsGo, hd]]
      simp

theorem lastNot_subRunsGo {p : Char → Bool} {r : Char} :
    ∀ (s : List Char) (b : Bool), lastNot p s = true → lastNot p (subRunsGo p r b s) = true := by
  intro s
  induction s with
  | nil =>
    intro b _
    rfl
  | cons d t ih =>
    intro b h1
    cases t with
    | nil =>
      have hd : p d = false := by simpa [lastNot] using h1
      rw [show subRunsGo p r b [d] = d :: subRunsGo p r false [] by simp [subRunsGo, hd]]
      simpa [subRunsGo, lastNot] using hd
    | cons e t2 =>
      rw [lastNot_cons_of_ne_nil d (by simp)] at h1
      by_cases hd : p d
      · cases b with
        | true =>
          rw [show subRunsGo p r true (d :: e :: t2) = subRunsGo p r true (e :: t2) by
            simp [subRunsGo, hd]]
          exact ih true h1
        | false =>
          rw [show subRunsGo p r false (d :: e :: t2) = r :: subRunsGo p r true (e :: t2) by
            simp [subRunsGo, hd]]
          rw [lastNot_cons_of_ne_nil r (subRunsGo_ne_nil (e :: t2) true h1 (by simp))]
          exact ih true h1
      · rw [show subRunsGo p r b (d :: e :: t2) = d :: subRunsGo p r false (e :: t2) by
          simp [subRunsGo, hd]]
        rw [lastNot_cons_of_ne_nil d (subRunsGo_ne_nil (e :: t2) false h1 (by simp))]
        exact ih false h1

theorem headNot_dropWhile (p : Char → Bool) :
    ∀ (s : List Char), headNot p (s.dropWhile p) = true := by
  intro s
  induction s with
  | nil => rfl
  | cons d t ih =>
    by_cases hd : p d
    · rw [List.dropWhile_cons, if_pos hd]
      exact ih
    · rw [List.dropWhile_cons, if_neg hd]
      simpa [headNot] using hd

theorem lastNot_dropEnd (p : Char → Bool) :
    ∀ (s : List Char), lastNot p (dropEnd p s) = true := by
  intro s
  induction s with
  | nil => rfl
  | cons d t ih =>
    rw [show dropEnd p (d :: t) =
      (if (dropEnd p t).isEmpty && p d then [] else d :: dropEnd p t) by rfl]
    by_cases hg : (dropEnd p t).isEmpty && p d
    · rw [if_pos hg]
      rfl
    · rw [if_neg hg]
      rcases he : dropEnd p t with _ | ⟨e, t2⟩
      · have hd : p d = false := by
          rw [he] at hg
          simpa using hg
        simpa [lastNot] using hd
      · rw [lastNot_cons_of_ne_nil d (by simp)]
        rw [he] at ih
        exact ih

theorem headNot_dropEnd {p q : Char → Bool} {s : List Char}
    (h : headNot q s = true) : headNot q (dropEnd p s) = true := by
  cases s with
  | nil => rfl
  | cons d t =>
    rw [show dropEnd p (d :: t) =
      (if (dropEnd p t).isEmpty && p d then [] else d :: dropEnd p t) by rfl]
    by_cases hg : (dropEnd p t).isEmpty && p d
    · rw [if_pos hg]
      rfl
    · rw [if_neg hg]
      simpa [headNot] using h

theorem dropWhile_eq_self {p : Char → Bool} {s : List Char}
    (h : headNot p s = true) : s.dropWhile p = s := by
  cases s with
  | nil => rfl
  | cons d t =>
    have hd : p d = false := by simpa [headNot] using h
    rw [List.dropWhile_cons, if_neg (by simp [hd])]

theorem dropEnd_eq_self {p : Char → Bool} :
    ∀ {s : List Char}, lastNot p s = true → dropEnd p s = s := by
  intro s
  induction s with
  | nil =>
    intro _
    rfl
  | cons d t ih =>
    intro h
    rw [show dropEnd p (d :: t) =
      (if (dropEnd p t).isEmpty && p d then [] else d :: dropEnd p t) by rfl]
    cases t with
    | nil =>
      have hd : p d = false := by simpa [lastNot] using h
      rw [if_neg (by simp [hd])]
      rfl
    | cons e t2 =>
      rw [lastNot_cons_of_ne_nil d (by simp)] at h
      rw [ih h, if_neg (by simp)]

theorem replCh_eq_self {a : Char} {r : List Char} :
    ∀ {s : List Char}, (∀ c ∈ s, (c == a) = false) → replCh a r s = s := by
  intro s
  induction s with
  | nil =>
    intro _
    rfl
  | cons d t ih =>
    intro h
    have hd := h d (List.mem_cons_self _ _)
    simp only [replCh, hd]
    rw [ih (fun c hc => h c (List.mem_cons_of_mem d hc))]
    rfl

/-- Characters of the whitespace-collapsed string are never newlines. -/
theorem no_newline_collapse {s : List Char} :
    ∀ c ∈ subRunsGo isWS ' ' false s, (c == '\n') = false := by
  intro c hc
  rcases mem_subRunsGo s false hc with h1 | ⟨h1, _⟩
  · subst h1
    rfl
  · have : c ≠ '\n' := by
      intro he
      subst he
      simp [isWS] at h1
    simpa using this

/-- The fixed-point description of normQuery on nonempty input. -/
theorem normQuery_eq_collapse (s : List Char) (h : s.isEmpty = false) :
    normQuery s = subRunsGo isWS ' ' false (pyStrip s) := by
  unfold normQuery
  rw [if_neg (by simp [h])]
  exact replCh_eq_self no_newline_collapse

theorem normQuery_idem (s : List Char) : normQuery (normQuery s) = normQuery s := by
  by_cases h0 : s.isEmpty
  · have h1 : normQuery s = [] := by simp [normQuery, h0]
    rw [h1]
    rfl
  · have hy : normQuery s = subRunsGo isWS ' ' false (pyStrip s) :=
      normQuery_eq_collapse s (by simpa using h0)
    rw [hy]
    by_cases hy0 : (subRunsGo isWS ' ' false (pyStrip s)).isEmpty
    · have h2 : subRunsGo isWS ' ' false (pyStrip s) = [] := by
        simpa [List.isEmpty_iff] using hy0
      rw [h2]
      rfl
    · have hhead : headNot isWS (subRunsGo isWS ' ' false (pyStrip s)) = true :=
        headNot_subRunsGo_false (headNot_dropEnd (headNot_dropWhile isWS s))
      have hlast : lastNot isWS (subRunsGo isWS ' ' false (pyStrip s)) = true :=
        lastNot_subRunsGo (pyStrip s) false (lastNot_dropEnd isWS (s.dropWhile isWS))
      have hstrip : pyStrip (subRunsGo isWS ' ' false (pyStrip s)) =
          subRunsGo isWS ' ' false (pyStrip s) := by
        calc pyStrip (subRunsGo isWS ' ' false (pyStrip s))
            = dropEnd isWS ((subRunsGo isWS ' ' false (pyStrip s)).dropWhile isWS) := rfl
          _ = dropEnd isWS (subRunsGo isWS ' ' false (pyStrip s)) := by
              rw [dropWhile_eq_self hhead]
          _ = subRunsGo isWS ' ' false (pyStrip s) := dropEnd_eq_self hlast
      have hcoll : subRunsGo isWS ' ' false (subRunsGo isWS ' ' false (pyStrip s)) =
          subRunsGo isWS ' ' false (pyStrip s) := by
        apply subRunsGo_eq_self _ false (noTwoP_subRunsGo (pyStrip s) false)
        · intro c hc hpc
          rcases mem_subRunsGo (pyStrip s) false hc with h1 | ⟨h1, _⟩
          · exact h1
          · rw [hpc] at h1
            cases h1
        · intro h
          cases h
      rw [normQuery_eq_collapse _ (by simpa using hy0), hstrip, hcoll]

/-! Lemmas about lookups and the inert two-letter-code tier. -/

theorem lookupL_eq_none_of_short {α : Type} :
    ∀ (l : List (List Char × α)), (l.all (fun p => decide (3 < p.1.length))) = true →
      ∀ k : List Char, k.length = 2 → lookupL l k = none := by
  intro l
  induction l with
  | nil =>
    intro _ k _
    rfl
  | cons p rest ih =>
    intro hall k hk
    obtain ⟨k2, v⟩ := p
    simp only [List.all_cons, Bool.and_eq_true, decide_eq_true_eq] at hall
    show (if k2 == k then some v else lookupL rest k) = none
    have hne : ¬ (k2 == k) = true := by
      intro he
      have h2 : k2 = k := by simpa using he
      subst h2
      have h3 := hall.1
      omega
    rw [if_neg hne]
    exact ih hall.2 k hk

theorem tier2Ret_none : ∀ toks : List (List Char), tier2Ret toks = none := by
  intro toks
  induction toks with
  | nil => rfl
  | cons t rest ih =>
    show tier2Ret (t :: rest) = none
    unfold tier2Ret
    by_cases hl : (pyStrip t).length == 2
    · rw [if_pos hl]
      rw [lookupL_eq_none_of_short abbrMapInv (by decide) (pyUpper (pyStrip t))
        (by simpa [pyUpper] using hl)]
      exact ih
    · rw [if_neg hl]
      exact ih

/-! Short-circuit behaviour of the variant-retry loop. -/

theorem firstSome_append_cons {f : List Char → Option Coord} {pre : List (List Char)}
    {a : List Char} {post : List (List Char)} {r : Coord}
    (hpre : ∀ b ∈ pre, f b = none) (ha : f a = some r) :
    firstSome f (pre ++ a :: post) = some r := by
  induction pre with
  | nil =>
    show firstSome f (a :: post) = some r
    unfold firstSome
    rw [ha]
  | cons x xs ih =>
    have hx : f x = none := hpre x (List.mem_cons_self _ _)
    show firstSome f (x :: (xs ++ a :: post)) = some r
    unfold firstSome
    rw [hx]
    exact ih (fun b hb => hpre b (List.mem_cons_of_mem _ hb))

/-! Claim theorems. -/

/-- Claim C1 (code bug): the resolver is claimed to check two-letter postal
codes on separator-delimited tokens as its second tier, but the abbreviation
dictionary is built inverted (full state name to code), so the tier can
never match: the input "FL" resolves to nothing, every token list makes the
tier-2 loop fall through, while the tier built as the spec and the source
comments intend it resolves "FL" to the Florida centroid. -/
theorem claim1_code_bug :
    find_location_coords (("FL").data) = none ∧
    (∀ toks : List (List Char), tier2Ret toks = none) ∧
    tier2Spec (splitToks (normalizeLoc (("FL").data))) = some (27766279, -81686783) :=
  ⟨rfl, tier2Ret_none, rfl⟩

/-- Claim C2 counterexample: the claim says resolving "Fire in FL, 1999"
matches Florida through the tier-2 two-letter-code path; in fact the
resolver returns no match at all for this input, because tokens are split
only on commas, slashes, semicolons, " and " and " & ", so "fire in fl" is
a single ten-character token. -/
theorem claim2_counterexample :
    find_location_coords (("Fire in FL, 1999").data) = none := rfl

/-- Claim C2 (amended): "FLorida" does not match through the tier-2 path
(it matches tier 1 as a substring); "Fire in FL, 1999" resolves to no match
at all; "Fargo, ND" resolves to (47.528912, -99.784012), in microdegrees
(47528912, -99784012), but through the city-alias tier entry "fargo": the
state tier, the two-letter-code tier, the region tier and the extra-keyword
tier all fail on it. -/
theorem claim2_amended :
    tier2Ret (splitToks (normalizeLoc (("FLorida").data))) = none ∧
    find_location_coords (("FLorida").data) = some (27766279, -81686783) ∧
    find_location_coords (("Fire in FL, 1999").data) = none ∧
    find_location_coords (("Fargo, ND").data) = some (47528912, -99784012) ∧
    firstSub stateCoords (normalizeLoc (("Fargo, ND").data)) = none ∧
    tier2Ret (splitToks (normalizeLoc (("Fargo, ND").data))) = none ∧
    firstSub expandedRegions (normalizeLoc (("Fargo, ND").data)) = none ∧
    firstSub extraKeywords (normalizeLoc (("Fargo, ND").data)) = none ∧
    firstSub cityMap (normalizeLoc (("Fargo, ND").data)) = some (47528912, -99784012) :=
  ⟨rfl, rfl, rfl, rfl, rfl, rfl, rfl, rfl, rfl⟩

/-- Claim C3 counterexample: the resolver normalization is not idempotent.
On "_and," the first pass turns the underscore into a space after the
standalone-"and" isolation has already run, producing "and,"; the second
pass then isolates the "and" and yields "and ,". -/
theorem claim3_counterexample :
    normalizeLoc (normalizeLoc (("_and,").data)) ≠ normalizeLoc (("_and,").data) := by
  decide

/-- Claim C3 (amended): the cache-query normalizer of geocode_nominatim is
idempotent for every string; the resolver normalization sequence is not
idempotent in general (see the counterexample). -/
theorem claim3_amended : ∀ s : List Char, normQuery (normQuery s) = normQuery s :=
  normQuery_idem

/-- Claim C5 counterexample: the claim describes the second attempt as the
query with the trailing ", United States" hint stripped, but the code
removes every occurrence of the hint, so on a query with an interior
occurrence the two attempt lists differ. -/
theorem claim5_counterexample :
    tryAttempts (("A, United States, United States").data) =
      [("A, United States, United States").data, ("A").data, ("United States").data,
        ("United States, United States").data, ("A, United States").data] ∧
    specAttempts (("A, United States, United States").data) =
      [("A, United States, United States").data, ("A, United States").data,
        ("United States").data, ("A").data, ("United States, United States").data] ∧
    tryAttempts (("A, United States, United States").data) ≠
      specAttempts (("A, United States, United States").data) :=
  ⟨rfl, rfl, by decide⟩

/-- Claim C5 (amended): for every query the attempt list is the ordered
deduplication, dropping empty strings, of the query itself, then (when the
query ends with the hint) the query with every occurrence of ", United
States" removed, then the comma/semicolon/"and"/"&"-delimited parts sorted
stably by descending length, then those parts with the hint appended; and
attempts are issued in order with the first non-none external result
short-circuiting all remaining attempts. -/
theorem claim5_amended :
    (∀ q : List Char, tryAttempts q =
      dedupNE [] (q :: ((if hintUS.isSuffixOf q then [removeHint q] else []) ++
        sortDescLen (partsOf q) ++ (sortDescLen (partsOf q)).map (fun p => p ++ hintUS)))) ∧
    (∀ (f : List Char → Option Coord) (q a : List Char) (r : Coord)
      (pre post : List (List Char)),
      q.isEmpty = false → tryAttempts q = pre ++ a :: post → (∀ b ∈ pre, f b = none) →
      f a = some r → try_geocode_variants f q = some r) := by
  constructor
  · intro q
    rfl
  · intro f q a r pre post hq hsplit hpre ha
    unfold try_geocode_variants
    rw [if_neg (by simp [hq]), hsplit]
    exact firstSome_append_cons hpre ha

/-- Claim C5 witness: on the query "A, B" with an oracle failing on the
first two attempts and succeeding on "B", the variant loop returns the
oracle result for "B". -/
theorem claim5_witness :
    try_geocode_variants
      (fun s => if s == ("B").data then some ((1 : Int), (2 : Int)) else none)
      (("A, B").data) = some ((1 : Int), (2 : Int)) :=
  claim5_amended.2 (fun s => if s == ("B").data then some ((1 : Int), (2 : Int)) else none)
    (("A, B").data) (("B").data) ((1 : Int), (2 : Int))
    [("A, B").data, ("A").data]
    [("A, United States").data, ("B, United States").data]
    rfl rfl (by decide) rfl

/-- Claim C6 (code bug): the politeness delay is claimed to precede every
external lookup attempt, including between retry variants of one record,
and the docstring of the module promises at least one second of sleep
between requests; but the loop sleeps only once per missing record, after
all its variant attempts, so with an oracle that keeps failing the four
variant requests of one missing query are issued back to back with no sleep
between them. -/
theorem claim6_code_bug :
    runTrace (fun _ => none) [(("Springfield, United States").data)] =
      [GeoAct.req (("Springfield, United States").data),
        GeoAct.req (("Springfield").data),
        GeoAct.req (("United States").data),
        GeoAct.req (("United States, United States").data),
        GeoAct.sleep] ∧
    noAdjacentReqs (runTrace (fun _ => none) [(("Springfield, United States").data)]) = false :=
  ⟨rfl, rfl⟩

/-- Claim C8: persisting the in-memory cache and loading it back
reproduces the cache exactly: the same keys with the same values,
including explicit negative entries. -/
theorem claim8_roundtrip :
    ∀ c : List (List Char × Option Coord), decodeCache (encodeCache c) = some c := by
  intro c
  induction c with
  | nil => rfl
  | cons p t ih =>
    obtain ⟨k, v⟩ := p
    have h1 : decodeEntry (encodeEntry v) = some v := by
      cases v with
      | none => rfl
      | some c2 =>
        obtain ⟨la, lo⟩ := c2
        rfl
    have ih2 : decodeFields (t.map (fun p => (p.1, encodeEntry p.2))) = some t := ih
    show decodeFields ((k, encodeEntry v) :: t.map (fun p => (p.1, encodeEntry p.2))) = _
    unfold decodeFields
    rw [h1, ih2]

/-! Association-list lemmas for the cache frame property. -/

theorem hasKey_cons {α : Type} {k2 : List Char} {v : α} {rest : List (List Char × α)}
    {k : List Char} :
    hasKey ((k2, v) :: rest) k = ((k2 == k) || hasKey rest k) := by
  show (lookupL ((k2, v) :: rest) k).isSome = _
  by_cases he : (k2 == k) = true
  · rw [show lookupL ((k2, v) :: rest) k = some v by simp [lookupL, he], he]
    rfl
  · have he2 : (k2 == k) = false := by simpa using he
    rw [show lookupL ((k2, v) :: rest) k = lookupL rest k by simp [lookupL, he2], he2]
    rfl

theorem dictSet_fresh {α : Type} {v : α} :
    ∀ {c : List (List Char × α)} {k : List Char}, hasKey c k = false →
      dictSet c k v = c ++ [(k, v)] := by
  intro c
  induction c with
  | nil =>
    intro k _
    rfl
  | cons p rest ih =>
    intro k h
    obtain ⟨k2, v2⟩ := p
    rw [hasKey_cons, Bool.or_eq_false_iff] at h
    show (if k2 == k then (k2, v) :: rest else (k2, v2) :: dictSet rest k v) = _
    rw [if_neg (by simp [h.1]), ih h.2]
    rfl

theorem lookupL_append_left {α : Type} {d : List (List Char × α)} :
    ∀ {c : List (List Char × α)} {k : List Char}, hasKey c k = true →
      lookupL (c ++ d) k = lookupL c k := by
  intro c
  induction c with
  | nil =>
    intro k h
    simp [hasKey, lookupL] at h
  | cons p rest ih =>
    intro k h
    obtain ⟨k2, v2⟩ := p
    by_cases he : (k2 == k) = true
    · show (if k2 == k then some v2 else lookupL (rest ++ d) k) = _
      rw [if_pos he]
      simp [lookupL, he]
    · have he2 : (k2 == k) = false := by simpa using he
      rw [hasKey_cons, he2, Bool.false_or] at h
      show (if k2 == k then some v2 else lookupL (rest ++ d) k) = _
      rw [if_neg he, ih h]
      simp [lookupL, he2]

theorem lookupL_append_right {α : Type} {d : List (List Char × α)} :
    ∀ {c : List (List Char × α)} {k : List Char}, hasKey c k = false →
      lookupL (c ++ d) k = lookupL d k := by
  intro c
  induction c with
  | nil =>
    intro k _
    rfl
  | cons p rest ih =>
    intro k h
    obtain ⟨k2, v2⟩ := p
    rw [hasKey_cons, Bool.or_eq_false_iff] at h
    show (if k2 == k then some v2 else lookupL (rest ++ d) k) = _
    rw [if_neg (by simp [h.1])]
    exact ih h.2

theorem hasKey_append {α : Type} {d : List (List Char × α)} :
    ∀ {c : List (List Char × α)} {k : List Char},
      hasKey (c ++ d) k = (hasKey c k || hasKey d k) := by
  intro c
  induction c with
  | nil =>
    intro k
    rfl
  | cons p rest ih =>
    intro k
    obtain ⟨k2, v2⟩ := p
    rw [show ((k2, v2) :: rest) ++ d = (k2, v2) :: (rest ++ d) by rfl, hasKey_cons, ih,
      hasKey_cons, Bool.or_assoc]

theorem lookupL_map_self {res : List Char → Option Coord} :
    ∀ (ms : List (List Char)) (q : List Char), q ∈ ms →
      lookupL (ms.map (fun p => (p, res p))) q = some (res q) := by
  intro ms
  induction ms with
  | nil =>
    intro q h
    cases h
  | cons x xs ih =>
    intro q h
    show (if x == q then some (res x) else lookupL (xs.map (fun p => (p, res p))) q) = _
    by_cases he : (x == q) = true
    · have h2 : x = q := by simpa using he
      rw [if_pos he, h2]
    · have h2 : x ≠ q := by simpa using he
      rw [if_neg he]
      exact ih q (by rcases List.mem_cons.mp h with h3 | h3; exact absurd h3.symm h2; exact h3)

theorem foldl_dictSet_spec {res : List Char → Option Coord} :
    ∀ (ms : List (List Char)) (c : List (List Char × Option Coord)),
      (∀ q ∈ ms, hasKey c q = false) → ms.Nodup →
      ms.foldl (fun c2 q => dictSet c2 q (res q)) c = c ++ ms.map (fun q => (q, res q)) := by
  intro ms
  induction ms with
  | nil =>
    intro c _ _
    simp
  | cons q rest ih =>
    intro c hfresh hnd
    have hq : hasKey c q = false := hfresh q (List.mem_cons_self _ _)
    have hstep : dictSet c q (res q) = c ++ [(q, res q)] := dictSet_fresh hq
    show List.foldl (fun c2 p => dictSet c2 p (res p)) (dictSet c q (res q)) rest = _
    rw [hstep, ih (c ++ [(q, res q)])]
    · simp
    · intro p hp
      rw [hasKey_append, Bool.or_eq_false_iff]
      refine ⟨hfresh p (List.mem_cons_of_mem _ hp), ?_⟩
      have hpq : p ≠ q := by
        intro he
        subst he
        exact (List.nodup_cons.mp hnd).1 hp
      rw [hasKey_cons]
      simp [hasKey, lookupL, hpq]
      intro he
      exact absurd (by simpa using he : q = p) (fun h2 => hpq h2.symm)
    · exact (List.nodup_cons.mp hnd).2

/-- Claim C4: after a query is recorded with the explicit negative marker,
a later run that loads the cache excludes it from the missing-query list
(so the external client is never invoked for it), and the record falls
through past the cache to the approx-map fallback and the heuristic
resolver. -/
theorem claim4_negative_cache :
    ∀ (cache : List (List Char × Option Coord)) (uniq : List (List Char))
      (approx : List (Nat × Coord)) (q : List Char) (rid : Nat),
      lookupL cache q = some none →
      q ∉ missingQueries uniq cache ∧
      recordCoord cache approx q rid =
        (match lookupApprox approx rid with
          | some c => some c
          | none => find_location_coords q) := by
  intro cache uniq approx q rid h
  constructor
  · intro hmem
    have h2 := (List.mem_filter.mp hmem).2
    rw [show hasKey cache q = true by simp [hasKey, h]] at h2
    simp at h2
  · have h2 : cacheCoord cache q = none := by
      by_cases hq : q.isEmpty
      · simp [cacheCoord, hq]
      · simp [cacheCoord, hq, h]
    show (match cacheCoord cache q with
      | some c => some c
      | none =>
        match lookupApprox approx rid with
        | some c => some c
        | none => find_location_coords q) = _
    rw [h2]

/-- Claim C4 witness: the concrete cache holding the explicit negative for
the query "atlantis, United States" keeps that query out of the missing
list and sends the record to the heuristic resolver. -/
theorem claim4_witness :
    (("atlantis, United States").data ∉
      missingQueries [(("atlantis, United States").data)]
        [((("atlantis, United States").data), (none : Option Coord))]) ∧
    recordCoord [((("atlantis, United States").data), (none : Option Coord))] []
        (("atlantis, United States").data) 3 =
      find_location_coords (("atlantis, United States").data) := by
  have h := claim4_negative_cache
    [((("atlantis, United States").data), (none : Option Coord))]
    [(("atlantis, United States").data)] [] (("atlantis, United States").data) 3 rfl
  exact ⟨h.1, h.2⟩

/-- Claim C10: within one run, entries present in the loaded cache are
never modified or removed, and the persisted cache is exactly the loaded
mapping followed by one entry per previously missing query, holding the
result of this run for that query. -/
theorem claim10_frame :
    ∀ (cache : List (List Char × Option Coord)) (uniq : List (List Char))
      (res : List Char → Option Coord), uniq.Nodup →
      runUpdate cache uniq res =
        cache ++ (missingQueries uniq cache).map (fun q => (q, res q)) ∧
      (∀ k : List Char, hasKey cache k = true →
        lookupL (runUpdate cache uniq res) k = lookupL cache k) ∧
      keysOf (runUpdate cache uniq res) = keysOf cache ++ missingQueries uniq cache ∧
      (∀ q ∈ missingQueries uniq cache, lookupL (runUpdate cache uniq res) q = some (res q)) := by
  intro cache uniq res hnd
  have hfresh : ∀ q ∈ missingQueries uniq cache, hasKey cache q = false := by
    intro q hq
    have h2 := (List.mem_filter.mp hq).2
    simpa using h2
  have hrun : runUpdate cache uniq res =
      cache ++ (missingQueries uniq cache).map (fun q => (q, res q)) :=
    foldl_dictSet_spec (missingQueries uniq cache) cache hfresh (hnd.filter _)
  refine ⟨hrun, ?_, ?_, ?_⟩
  · intro k hk
    rw [hrun]
    exact lookupL_append_left hk
  · rw [hrun]
    show List.map Prod.fst (cache ++ _) = _
    rw [List.map_append, List.map_map]
    have h3 : (Prod.fst ∘ fun q : List Char => (q, res q)) = id := by
      funext q
      rfl
    rw [h3, List.map_id]
    rfl
  · intro q hq
    rw [hrun, lookupL_append_right (hfresh q hq)]
    exact lookupL_map_self (missingQueries uniq cache) q hq

/-- Claim C10 witness: with a loaded cache holding one entry and one new
missing query, the run leaves the old entry untouched and appends exactly
the new one. -/
theorem claim10_witness :
    runUpdate [((("a").data), some ((1 : Int), (2 : Int)))] [("a").data, ("b").data]
        (fun _ => none) =
      [((("a").data), some ((1 : Int), (2 : Int))), ((("b").data), none)] ∧
    lookupL (runUpdate [((("a").data), some ((1 : Int), (2 : Int)))]
        [("a").data, ("b").data] (fun _ => none)) (("a").data) =
      some (some ((1 : Int), (2 : Int))) ∧
    lookupL (runUpdate [((("a").data), some ((1 : Int), (2 : Int)))]
        [("a").data, ("b").data] (fun _ => none)) (("b").data) = some none := by
  have h := claim10_frame [((("a").data), some ((1 : Int), (2 : Int)))]
    [("a").data, ("b").data] (fun _ => none) (by decide)
  refine ⟨?_, ?_, ?_⟩
  · rw [h.1]
    rfl
  · rw [h.2.1 (("a").data) rfl]
    rfl
  · exact h.2.2.2 (("b").data) (by decide)

/-! Validity of the gazetteer tables and of resolved coordinates. -/

theorem firstSub_mem {tbl : List (List Char × Coord)} :
    ∀ {s : List Char} {c : Coord}, firstSub tbl s = some c → c ∈ tbl.map Prod.snd := by
  induction tbl with
  | nil =>
    intro s c h
    cases h
  | cons p rest ih =>
    intro s c h
    obtain ⟨k, v⟩ := p
    by_cases hk : containsSub k s
    · rw [show firstSub ((k, v) :: rest) s = some v by simp [firstSub, hk]] at h
      injection h with h2
      subst h2
      exact List.mem_cons_self _ _
    · rw [show firstSub ((k, v) :: rest) s = firstSub rest s by simp [firstSub, hk]] at h
      exact List.mem_cons_of_mem _ (ih h)

theorem tables_valid :
    (∀ c ∈ stateCoords.map Prod.snd, validCoord c) ∧
    (∀ c ∈ expandedRegions.map Prod.snd, validCoord c) ∧
    (∀ c ∈ extraKeywords.map Prod.snd, validCoord c) ∧
    (∀ c ∈ cityMap.map Prod.snd, validCoord c) := by
  refine ⟨?_, ?_, ?_, ?_⟩ <;> decide

theorem lookupL_mem {α : Type} :
    ∀ {l : List (List Char × α)} {k : List Char} {v : α},
      lookupL l k = some v → (k, v) ∈ l := by
  intro l
  induction l with
  | nil =>
    intro k v h
    cases h
  | cons p rest ih =>
    intro k v h
    obtain ⟨k2, v2⟩ := p
    by_cases he : (k2 == k) = true
    · have h2 : k2 = k := by simpa using he
      subst h2
      rw [show lookupL ((k2, v2) :: rest) k2 = some v2 by simp [lookupL]] at h
      injection h with h3
      subst h3
      exact List.mem_cons_self _ _
    · have he2 : (k2 == k) = false := by simpa using he
      rw [show lookupL ((k2, v2) :: rest) k = lookupL rest k by simp [lookupL, he2]] at h
      exact List.mem_cons_of_mem _ (ih h)

theorem lookupApprox_mem :
    ∀ {l : List (Nat × Coord)} {rid : Nat} {c : Coord},
      lookupApprox l rid = some c → (rid, c) ∈ l := by
  intro l
  induction l with
  | nil =>
    intro rid c h
    cases h
  | cons p rest ih =>
    intro rid c h
    obtain ⟨i, v⟩ := p
    by_cases he : (i == rid) = true
    · have h2 : i = rid := by simpa using he
      subst h2
      rw [show lookupApprox ((i, v) :: rest) i = some v by simp [lookupApprox]] at h
      injection h with h3
      subst h3
      exact List.mem_cons_self _ _
    · have he2 : (i == rid) = false := by simpa using he
      rw [show lookupApprox ((i, v) :: rest) rid = lookupApprox rest rid by
        simp [lookupApprox, he2]] at h
      exact List.mem_cons_of_mem _ (ih h)

theorem find_location_coords_valid :
    ∀ (q : List Char) (c : Coord), find_location_coords q = some c → validCoord c := by
  intro q c h
  unfold find_location_coords at h
  by_cases hq : q.isEmpty
  · rw [if_pos hq] at h
    cases h
  · rw [if_neg hq] at h
    rcases h1 : firstSub stateCoords (normalizeLoc q) with _ | c1
    · rw [h1, tier2Ret_none (splitToks (normalizeLoc q))] at h
      rcases h3 : firstSub expandedRegions (normalizeLoc q) with _ | c3
      · rw [h3] at h
        rcases h4 : firstSub extraKeywords (normalizeLoc q) with _ | c4
        · rw [h4] at h
          exact tables_valid.2.2.2 c (firstSub_mem h)
        · rw [h4] at h
          injection h with h5
          subst h5
          exact tables_valid.2.2.1 c4 (firstSub_mem h4)
      · rw [h3] at h
        injection h with h5
        subst h5
        exact tables_valid.2.1 c3 (firstSub_mem h3)
    · rw [h1] at h
      injection h with h5
      subst h5
      exact tables_valid.1 c1 (firstSub_mem h1)

theorem recordCoord_valid {cache : List (List Char × Option Coord)} {approx : List (Nat × Coord)}
    (hc : ∀ (k : List Char) (c : Coord), (k, some c) ∈ cache → validCoord c)
    (ha : ∀ (i : Nat) (c : Coord), (i, c) ∈ approx → validCoord c) :
    ∀ (q : List Char) (rid : Nat) (c : Coord),
      recordCoord cache approx q rid = some c → validCoord c := by
  intro q rid c h
  unfold recordCoord at h
  rcases h1 : cacheCoord cache q with _ | c1
  · rw [h1] at h
    rcases h2 : lookupApprox approx rid with _ | c2
    · rw [h2] at h
      exact find_location_coords_valid q c h
    · rw [h2] at h
      injection h with h5
      subst h5
      exact ha rid c2 (lookupApprox_mem h2)
  · rw [h1] at h
    injection h with h5
    subst h5
    unfold cacheCoord at h1
    by_cases hq : q.isEmpty
    · rw [if_neg (by simp [hq])] at h1
      cases h1
    · rw [if_pos (by simp [hq])] at h1
      rcases h3 : lookupL cache q with _ | v
      · rw [h3] at h1
        cases h1
      · rcases v with _ | c4
        · rw [h3] at h1
          cases h1
        · rw [h3] at h1
          injection h1 with h5
          subst h5
          exact hc q c4 (lookupL_mem h3)

set_option maxHeartbeats 1000000 in
theorem mem_buildFeatures :
    ∀ (rows : List Row) (cache : List (List Char × Option Coord)) (approx : List (Nat × Coord))
      (f : Feature), f ∈ buildFeatures rows cache approx →
      ∃ r, r ∈ rows ∧ r.rid = f.fid ∧
        recordCoord cache approx (rowQuery r) r.rid = some (f.lat, f.lon) := by
  intro rows cache approx
  induction rows with
  | nil =>
    intro f h
    simp [buildFeatures] at h
  | cons r rest ih =>
    intro f h
    have hb : buildFeatures (r :: rest) cache approx =
        (match recordCoord cache approx (rowQuery r) r.rid with
          | some c => { fid := r.rid, lat := c.1, lon := c.2 } :: buildFeatures rest cache approx
          | none => buildFeatures rest cache approx) := rfl
    rcases h1 : recordCoord cache approx (rowQuery r) r.rid with _ | c
    · rw [hb, h1] at h
      obtain ⟨r2, hr2, h3, h4⟩ := ih f h
      exact ⟨r2, List.mem_cons_of_mem _ hr2, h3, h4⟩
    · rw [hb, h1] at h
      rcases List.mem_cons.mp h with h2 | h2
      · subst h2
        exact ⟨r, List.mem_cons_self _ _, rfl, h1⟩
      · obtain ⟨r2, hr2, h3, h4⟩ := ih f h2
        exact ⟨r2, List.mem_cons_of_mem _ hr2, h3, h4⟩

/-- Claim C7 counterexample: the pipeline performs no range validation on
cached coordinates, so a cache entry with latitude 999 (in microdegrees
999000000) flows into the output feature unchanged, violating the claimed
coordinate invariant. -/
theorem claim7_counterexample :
    buildFeatures [{ rid := 1, loc := ("somewhere").data, article := [], notes := [] }]
        [((("somewhere, United States").data), some ((999000000 : Int), (0 : Int)))] [] =
      [{ fid := 1, lat := 999000000, lon := 0 }] ∧
    ¬ validCoord ((999000000 : Int), (0 : Int)) :=
  ⟨rfl, by decide⟩

/-- Claim C7 (amended): when the rowids are distinct, every output feature
identifier corresponds to exactly one input record; and the coordinates of
every output feature are valid provided every cached coordinate and every
approx-map coordinate is valid - coordinates produced by the built-in
gazetteer are unconditionally valid. -/
theorem claim7_amended :
    ∀ (rows : List Row) (cache : List (List Char × Option Coord)) (approx : List (Nat × Coord)),
      (rows.map Row.rid).Nodup →
      (∀ (k : List Char) (c : Coord), (k, some c) ∈ cache → validCoord c) →
      (∀ (i : Nat) (c : Coord), (i, c) ∈ approx → validCoord c) →
      ∀ f ∈ buildFeatures rows cache approx,
        (∃! r, r ∈ rows ∧ r.rid = f.fid) ∧ validCoord (f.lat, f.lon) := by
  intro rows cache approx hnd hc ha f hf
  obtain ⟨r, hr, hrid, hcoord⟩ := mem_buildFeatures rows cache approx f hf
  refine ⟨⟨r, ⟨hr, hrid⟩, ?_⟩, recordCoord_valid hc ha _ _ _ hcoord⟩
  intro r2 hr2
  exact List.inj_on_of_nodup_map hnd hr2.1 hr (by rw [hr2.2, hrid])

/-- Claim C7 witness: a single record located in Texas with an empty cache
produces one feature whose identifier names exactly that record and whose
coordinates (the Texas centroid) are valid. -/
theorem claim7_witness :
    (∃! r, r ∈ [Row.mk 1 (("Texas").data) [] []] ∧
      r.rid = (Feature.mk 1 31054487 (-97563461)).fid) ∧
    validCoord ((Feature.mk 1 31054487 (-97563461)).lat,
      (Feature.mk 1 31054487 (-97563461)).lon) :=
  claim7_amended [Row.mk 1 (("Texas").data) [] []] [] []
    (by decide)
    (by intro k c hc; cases hc)
    (by intro i c hc; cases hc)
    (Feature.mk 1 31054487 (-97563461))
    (by decide)

/-! Character classification lemmas for the sanitizer. -/

theorem toLower_eq_of_not_upper {c : Char} (h : c.isUpper = false) : c.toLower = c := by
  have hn : ¬(c.toNat ≥ 65 ∧ c.toNat ≤ 90) := by
    simp [Char.isUpper, UInt32.le_def, BitVec.le_def] at h
    simp [Char.toNat, UInt32.toNat]
    omega
  unfold Char.toLower
  rw [if_neg hn]

theorem toLower_isLower_of_isUpper {c : Char} (h : c.isUpper = true) :
    (c.toLower).isLower = true := by
  simp [Char.isUpper, UInt32.le_def, BitVec.le_def] at h
  unfold Char.toLower
  rw [if_pos (by simp [Char.toNat, UInt32.toNat]; omega)]
  rw [show Char.ofNat (c.toNat + 32) =
    Char.ofNatAux (c.toNat + 32) (Or.inl (by simp [Char.toNat, UInt32.toNat]; omega)) by
      simp [Char.ofNat, Nat.isValidChar]
      rw [dif_pos]]
  simp [Char.ofNatAux, Char.isLower, UInt32.le_def, BitVec.le_def, UInt32.ofNat', Char.toNat,
    UInt32.toNat]
  omega

theorem isUpper_eq_false_of_isLower {c : Char} (h : c.isLower = true) : c.isUpper = false := by
  simp [Char.isLower, UInt32.le_def, BitVec.le_def] at h
  simp [Char.isUpper, UInt32.le_def, BitVec.le_def]
  omega

theorem isUpper_eq_false_of_isDigit {c : Char} (h : c.isDigit = true) : c.isUpper = false := by
  simp [Char.isDigit, UInt32.le_def, BitVec.le_def] at h
  simp [Char.isUpper, UInt32.le_def, BitVec.le_def]
  omega

theorem ne_underscore_of_isLower {c : Char} (h : c.isLower = true) : (c == '_') = false := by
  by_cases he : (c == '_') = true
  · have h2 : c = '_' := by simpa using he
    subst h2
    simp at h
  · simpa using he

theorem pUnd_toLower (d : Char) : (d.toLower == '_') = (d == '_') := by
  by_cases hu : d.isUpper = true
  · rw [ne_underscore_of_isLower (toLower_isLower_of_isUpper hu)]
    by_cases he : (d == '_') = true
    · have h2 : d = '_' := by simpa using he
      subst h2
      simp at hu
    · simp [by simpa using he]
  · rw [toLower_eq_of_not_upper (by simpa using hu)]

theorem snake_toLower_alnum {d : Char} (h : (d.isAlpha || d.isDigit) = true) :
    isSnakeChar d.toLower = true := by
  rcases Bool.or_eq_true_iff.mp h with h1 | h1
  · rcases Bool.or_eq_true_iff.mp h1 with h2 | h2
    · simp [isSnakeChar, toLower_isLower_of_isUpper h2]
    · rw [toLower_eq_of_not_upper (isUpper_eq_false_of_isLower h2)]
      simp [isSnakeChar, h2]
  · rw [toLower_eq_of_not_upper (isUpper_eq_false_of_isDigit h1)]
    simp [isSnakeChar, h1]

/-! List lemmas for the sanitizer pipeline. -/

theorem mem_dropWhile {p : Char → Bool} :
    ∀ {l : List Char} {c : Char}, c ∈ l.dropWhile p → c ∈ l := by
  intro l
  induction l with
  | nil =>
    intro c h
    simp at h
  | cons d t ih =>
    intro c h
    rw [List.dropWhile_cons] at h
    by_cases hd : p d
    · rw [if_pos hd] at h
      exact List.mem_cons_of_mem _ (ih h)
    · rw [if_neg hd] at h
      exact h

theorem mem_dropEnd {p : Char → Bool} :
    ∀ {l : List Char} {c : Char}, c ∈ dropEnd p l → c ∈ l := by
  intro l
  induction l with
  | nil =>
    intro c h
    rw [show dropEnd p ([] : List Char) = [] from rfl] at h
    cases h
  | cons d t ih =>
    intro c h
    rw [show dropEnd p (d :: t) =
      (if (dropEnd p t).isEmpty && p d then [] else d :: dropEnd p t) by rfl] at h
    by_cases hg : (dropEnd p t).isEmpty && p d
    · rw [if_pos hg] at h
      cases h
    · rw [if_neg hg] at h
      rcases List.mem_cons.mp h with h1 | h1
      · subst h1
        exact List.mem_cons_self _ _
      · exact List.mem_cons_of_mem _ (ih h1)

theorem noTwoP_mono {p q2 : Char → Bool} (hpq : ∀ c, p c = true → q2 c = true) :
    ∀ {l : List Char}, noTwoP q2 l = true → noTwoP p l = true := by
  intro l
  induction l with
  | nil =>
    intro _
    rfl
  | cons a t ih =>
    intro h
    cases t with
    | nil => rfl
    | cons b t2 =>
      simp only [noTwoP, Bool.and_eq_true] at h ⊢
      refine ⟨?_, ih h.2⟩
      by_cases hpa : p a = true
      · by_cases hpb : p b = true
        · have := h.1
          rw [hpq a hpa, hpq b hpb] at this
          simp at this
        · simp [by simpa using hpb]
      · simp [by simpa using hpa]

theorem noTwoP_dropWhile {p r : Char → Bool} :
    ∀ {l : List Char}, noTwoP p l = true → noTwoP p (l.dropWhile r) = true := by
  intro l
  induction l with
  | nil =>
    intro _
    rfl
  | cons d t ih =>
    intro h
    rw [List.dropWhile_cons]
    by_cases hd : r d
    · rw [if_pos hd]
      exact ih (noTwoP_of_cons h)
    · rw [if_neg hd]
      exact h

theorem noTwoP_dropEnd {p r : Char → Bool} :
    ∀ {l : List Char}, noTwoP p l = true → noTwoP p (dropEnd r l) = true := by
  intro l
  induction l with
  | nil =>
    intro _
    rfl
  | cons d t ih =>
    intro h
    rw [show dropEnd r (d :: t) =
      (if (dropEnd r t).isEmpty && r d then [] else d :: dropEnd r t) by rfl]
    by_cases hg : (dropEnd r t).isEmpty && r d
    · rw [if_pos hg]
      rfl
    · rw [if_neg hg]
      rcases he : dropEnd r t with _ | ⟨y, l2⟩
      · rfl
      · have hy : ∃ t2, t = y :: t2 := by
          cases t with
          | nil => cases he
          | cons z t3 =>
            rw [show dropEnd r (z :: t3) =
              (if (dropEnd r t3).isEmpty && r z then [] else z :: dropEnd r t3) by rfl] at he
            by_cases hg2 : (dropEnd r t3).isEmpty && r z
            · rw [if_pos hg2] at he
              cases he
            · rw [if_neg hg2] at he
              injection he with he1 _
              exact ⟨t3, by rw [he1]⟩
        obtain ⟨t2, ht⟩ := hy
        subst ht
        simp only [noTwoP, Bool.and_eq_true] at h ⊢
        refine ⟨h.1, ?_⟩
        have h2 := ih h.2
        rw [he] at h2
        exact h2

theorem headNot_map_congr {p : Char → Bool} {f : Char → Char}
    (hpf : ∀ d, p (f d) = p d) {l : List Char} :
    headNot p (l.map f) = headNot p l := by
  cases l with
  | nil => rfl
  | cons d t => simp [headNot, hpf]

theorem lastNot_map_congr {p : Char → Bool} {f : Char → Char}
    (hpf : ∀ d, p (f d) = p d) :
    ∀ (l : List Char), lastNot p (l.map f) = lastNot p l := by
  intro l
  induction l with
  | nil => rfl
  | cons d t ih =>
    cases t with
    | nil => simp [lastNot, hpf]
    | cons e t2 =>
      rw [show (d :: e :: t2).map f = f d :: f e :: (t2.map f) by rfl,
        lastNot_cons_of_ne_nil (f d) (by simp), lastNot_cons_of_ne_nil d (by simp)]
      rw [show f e :: (t2.map f) = (e :: t2).map f by rfl]
      exact ih

theorem noTwoP_map_congr {p : Char → Bool} {f : Char → Char}
    (hpf : ∀ d, p (f d) = p d) :
    ∀ (l : List Char), noTwoP p (l.map f) = noTwoP p l := by
  intro l
  induction l with
  | nil => rfl
  | cons d t ih =>
    cases t with
    | nil => rfl
    | cons e t2 =>
      rw [show (d :: e :: t2).map f = f d :: f e :: (t2.map f) by rfl]
      show ((!(p (f d) && p (f e))) && noTwoP p (f e :: t2.map f)) = _
      rw [hpf, hpf, show f e :: (t2.map f) = (e :: t2).map f by rfl, ih]
      rfl

theorem und_implies_nonalnum :
    ∀ c : Char, (c == '_') = true → (!(c.isAlpha || c.isDigit)) = true := by
  intro c hc
  have h2 : c = '_' := by simpa using hc
  subst h2
  decide

/-- The underscore-run collapse is the identity after the alphanumeric-run
collapse: the source applies it anyway, the claim comparison omits it. -/
theorem underscore_collapse_id (c2 : List Char) :
    subRuns (fun c => c == '_') '_'
        (subRuns (fun c => !(c.isAlpha || c.isDigit)) '_' c2) =
      subRuns (fun c => !(c.isAlpha || c.isDigit)) '_' c2 := by
  apply subRunsGo_eq_self _ false
  · exact noTwoP_mono und_implies_nonalnum
      (noTwoP_subRunsGo c2 false)
  · intro c _ hc
    simpa using hc
  · intro h
    cases h

theorem sanitize_eq_claimed (col : List Char) :
    sanitize col = sanitizeClaimed (replCh '$' (("usd").data) (pyStrip col)) := by
  unfold sanitize sanitizeClaimed
  rw [underscore_collapse_id]

theorem sanitizeTail_props {c6 : List Char}
    (h1 : c6.all isSnakeChar = true)
    (h2 : headNot (fun c => c == '_') c6 = true)
    (h3 : lastNot (fun c => c == '_') c6 = true)
    (h4 : noTwoP (fun c => c == '_') c6 = true) :
    (sanitizeTail c6).isEmpty = false ∧
    (sanitizeTail c6).all isSnakeChar = true ∧
    headDigit (sanitizeTail c6) = false ∧
    headNot (fun c => c == '_') (sanitizeTail c6) = true ∧
    lastNot (fun c => c == '_') (sanitizeTail c6) = true ∧
    noTwoP (fun c => c == '_') (sanitizeTail c6) = true := by
  by_cases hc6 : c6.isEmpty
  · have he : c6 = [] := by simpa [List.isEmpty_iff] using hc6
    subst he
    refine ⟨?_, ?_, ?_, ?_, ?_, ?_⟩ <;> decide
  · have he : c6 ≠ [] := by simpa [List.isEmpty_iff] using hc6
    have h7 : (if c6.isEmpty then ("col").data else c6) = c6 := by
      rw [if_neg (by simpa using hc6)]
    unfold sanitizeTail
    rw [h7]
    by_cases hd : headDigit c6
    · rw [if_pos hd]
      refine ⟨rfl, ?_, rfl, rfl, ?_, ?_⟩
      · rw [List.all_cons, List.all_cons, h1]
        decide
      · rw [lastNot_cons_of_ne_nil _ (by simp), lastNot_cons_of_ne_nil _ he]
        exact h3
      · exact noTwoP_cons_of_not rfl (noTwoP_cons_of_headNot '_' h2 h4)
    · rw [if_neg hd]
      exact ⟨by simpa [List.isEmpty_iff] using he, h1, by simpa using hd, h2, h3, h4⟩

theorem sanitizeClaimed_props (x : List Char) :
    (sanitizeClaimed x).isEmpty = false ∧
    (sanitizeClaimed x).all isSnakeChar = true ∧
    headDigit (sanitizeClaimed x) = false ∧
    headNot (fun c => c == '_') (sanitizeClaimed x) = true ∧
    lastNot (fun c => c == '_') (sanitizeClaimed x) = true ∧
    noTwoP (fun c => c == '_') (sanitizeClaimed x) = true := by
  have hall : (pyLower (stripUnd
      (subRuns (fun c => !(c.isAlpha || c.isDigit)) '_' x))).all isSnakeChar = true := by
    rw [List.all_eq_true]
    intro e he
    rcases List.mem_map.mp he with ⟨d, hd, hde⟩
    subst hde
    rcases mem_subRunsGo _ false (mem_dropWhile (mem_dropEnd hd)) with h5 | ⟨h5, _⟩
    · subst h5
      rfl
    · have h6 : (d.isAlpha || d.isDigit) = true := by
        by_cases hb : (d.isAlpha || d.isDigit) = true
        · exact hb
        · rw [show (d.isAlpha || d.isDigit) = false by simpa using hb] at h5
          simp at h5
      exact snake_toLower_alnum h6
  have hhead : headNot (fun c => c == '_') (pyLower (stripUnd
      (subRuns (fun c => !(c.isAlpha || c.isDigit)) '_' x))) = true := by
    rw [show pyLower (stripUnd (subRuns (fun c => !(c.isAlpha || c.isDigit)) '_' x)) =
      (stripUnd (subRuns (fun c => !(c.isAlpha || c.isDigit)) '_' x)).map Char.toLower by rfl]
    rw [headNot_map_congr pUnd_toLower]
    exact headNot_dropEnd (headNot_dropWhile _ _)
  have hlast : lastNot (fun c => c == '_') (pyLower (stripUnd
      (subRuns (fun c => !(c.isAlpha || c.isDigit)) '_' x))) = true := by
    rw [show pyLower (stripUnd (subRuns (fun c => !(c.isAlpha || c.isDigit)) '_' x)) =
      (stripUnd (subRuns (fun c => !(c.isAlpha || c.isDigit)) '_' x)).map Char.toLower by rfl]
    rw [lastNot_map_congr pUnd_toLower]
    exact lastNot_dropEnd _ _
  have htwo : noTwoP (fun c => c == '_') (pyLower (stripUnd
      (subRuns (fun c => !(c.isAlpha || c.isDigit)) '_' x))) = true := by
    rw [show pyLower (stripUnd (subRuns (fun c => !(c.isAlpha || c.isDigit)) '_' x)) =
      (stripUnd (subRuns (fun c => !(c.isAlpha || c.isDigit)) '_' x)).map Char.toLower by rfl]
    rw [noTwoP_map_congr pUnd_toLower]
    exact noTwoP_dropEnd (noTwoP_dropWhile
      (noTwoP_mono und_implies_nonalnum
        (noTwoP_subRunsGo x false)))
  exact sanitizeTail_props hall hhead hlast htwo

/-- Claim C9 counterexample: the sanitizer does not turn every run of
non-alphanumeric characters into a single underscore, because the dollar
sign is first replaced by the letters "usd": on the header "a$b" the code
produces "ausdb" while the claimed behaviour produces "a_b". -/
theorem claim9_counterexample :
    sanitize (("a$b").data) = ("ausdb").data ∧
    sanitizeClaimed (("a$b").data) = ("a_b").data ∧
    sanitize (("a$b").data) ≠ sanitizeClaimed (("a$b").data) :=
  ⟨rfl, rfl, by decide⟩

/-- Claim C9 (amended): the sanitizer first trims whitespace and replaces
each dollar sign by "usd"; the result is then an ASCII snake_case
identifier: nonempty, made of underscores, digits and lowercase letters
only, not starting with a digit, with no leading, trailing or doubled
underscore, and equal to the claimed run-collapsing pipeline applied to
the dollar-replaced, stripped header. -/
theorem claim9_amended :
    ∀ col : List Char,
      (sanitize col).isEmpty = false ∧
      (sanitize col).all isSnakeChar = true ∧
      headDigit (sanitize col) = false ∧
      headNot (fun c => c == '_') (sanitize col) = true ∧
      lastNot (fun c => c == '_') (sanitize col) = true ∧
      noTwoP (fun c => c == '_') (sanitize col) = true ∧
      sanitize col = sanitizeClaimed (replCh '$' (("usd").data) (pyStrip col)) := by
  intro col
  have he := sanitize_eq_claimed col
  have hp := sanitizeClaimed_props (replCh '$' (("usd").data) (pyStrip col))
  rw [he]
  exact ⟨hp.1, hp.2.1, hp.2.2.1, hp.2.2.2.1, hp.2.2.2.2.1, hp.2.2.2.2.2, rfl⟩

end DisasterGeo
